import Mathlib

/-!
Shallow embedding of the RAINS resolution engine core (caches, validity
arithmetic, the assert/query procedures) and of the rainslib object
comparison, together with theorems checking the natural-language
specification against it.

Conventions: Go int64 unix timestamps and durations are Lean Int; Go
strings are Lean String (Go compares strings bytewise on UTF-8, which
coincides with the codepoint-lexicographic order used by Lean);
16-byte tokens and connection endpoints are opaque, modelled as Int;
Go code that can panic is embedded as an Option-returning function
(none = panic).
-/

namespace Rains

/-- Go strings are byte strings compared bytewise; since UTF-8 order agrees
with codepoint order, they are embedded as lists of characters. -/
abbrev GoStr := List Char

/-- Character list of a Lean string literal, for writing concrete Go
string values. -/
def goStr (s : String) : GoStr := s.data

/-! ## Splitting a query name (engine.go, getZoneAndName)

Go code: names := strings.Split(name, "."); return
[]zoneAndName{{zone: strings.Join(names[1:], "."), name: names[0]}}.
splitDot / joinDot embed strings.Split / strings.Join for the one-character
separator '.'. -/

/-- Embedding of Go strings.Split(s, ".") on the character list of s:
splits around every occurrence of '.', keeping empty fields, and yields
[[]] on the empty string, exactly as the Go library function does. -/
def splitDot : List Char → List (List Char)
  | [] => [[]]
  | c :: cs =>
    if c = '.' then [] :: splitDot cs
    else
      match splitDot cs with
      | [] => [[c]]
      | p :: ps => (c :: p) :: ps

/-- Embedding of Go strings.Join(parts, ".") on character lists. -/
def joinDot : List (List Char) → List Char
  | [] => []
  | [p] => p
  | p :: q :: ps => p ++ '.' :: joinDot (q :: ps)

/-- A (zone, name) pair as produced by getZoneAndName (engine.go). -/
structure ZoneAndName where
  zone : GoStr
  name : GoStr
deriving DecidableEq, Repr

/-- Embedding of getZoneAndName (engine.go): splits a fully qualified name
on '.', takes the first label as name and joins the rest with '.' as zone. -/
def getZoneAndName (name : GoStr) : List ZoneAndName :=
  match splitDot name with
  | [] => []
  | n :: rest => [⟨joinDot rest, n⟩]

/-- The label before the first '.' of a character list. -/
def beforeDot (l : List Char) : List Char := l.takeWhile (fun c => c ≠ '.')

/-- The remainder after the first '.' of a character list ([] when there is
no '.'). -/
def afterDot (l : List Char) : List Char := (l.dropWhile (fun c => c ≠ '.')).tail

theorem splitDot_ne_nil (l : List Char) : splitDot l ≠ [] := by
  cases l with
  | nil => simp [splitDot]
  | cons c cs =>
    unfold splitDot
    split
    · simp
    · cases h : splitDot cs <;> simp

theorem joinDot_splitDot (l : List Char) : joinDot (splitDot l) = l := by
  induction l with
  | nil => rfl
  | cons c cs ih =>
    unfold splitDot
    split
    · rename_i hc
      subst hc
      cases h : splitDot cs with
      | nil => exact absurd h (splitDot_ne_nil cs)
      | cons p ps =>
        rw [h] at ih
        simp [joinDot, ih]
    · cases h : splitDot cs with
      | nil => exact absurd h (splitDot_ne_nil cs)
      | cons p ps =>
        rw [h] at ih
        cases ps with
        | nil => simpa [joinDot] using ih
        | cons q qs => simpa [joinDot] using ih

theorem splitDot_head_tail (l : List Char) :
    ∃ rest, splitDot l = beforeDot l :: rest ∧ joinDot rest = afterDot l := by
  induction l with
  | nil => exact ⟨[], rfl, rfl⟩
  | cons c cs ih =>
    obtain ⟨rest, hsplit, hjoin⟩ := ih
    by_cases hc : c = '.'
    · subst hc
      refine ⟨splitDot cs, ?_, ?_⟩
      · simp [splitDot, beforeDot]
      · simp [afterDot, joinDot_splitDot]
    · refine ⟨rest, ?_, ?_⟩
      · simp [splitDot, hc, hsplit, beforeDot]
      · simpa [afterDot, hc] using hjoin

/-- C10: getZoneAndName returns exactly one (zone, name) pair for every
input and never fails: name is the label before the first '.', zone is the
remainder after it; with no '.' present (including the empty string) the
whole input is the name and the zone is empty. -/
theorem getZoneAndName_spec (s : GoStr) :
    getZoneAndName s = [⟨afterDot s, beforeDot s⟩] := by
  obtain ⟨rest, hsplit, hjoin⟩ := splitDot_head_tail s
  simp [getZoneAndName, hsplit, hjoin]

/-! ## Validity arithmetic (C1)

Modelled from the spec: the function UpdateSectionValidity itself is not
under src/; the repository only contains its test, TestUpdateSectionValidity
(src/unnamed/part_000).  The test and spec section 8 scenario 2 fix the
behaviour: the effective start is the later of the two ValidSince inputs and
the effective end the earlier of the two ValidUntil inputs, and each endpoint
is then independently upper-bounded by now + maxValidity.  The per-kind cap
selection (assertion / shard / zone) only chooses which configured duration
is passed as maxValidity, so the model takes the cap directly; the nil
no-op case of the Go function is outside this pure model. -/

/-- Modelled from the spec: effective validity window computed by
UpdateSectionValidity for a freshly verified section, as pinned down by
TestUpdateSectionValidity.  Returns (validSince, validUntil). -/
def UpdateSectionValidity (now pkeyValidSince pkeyValidUntil sigValidSince
    sigValidUntil maxValidity : Int) : Int × Int :=
  let validSince :=
    if pkeyValidSince < sigValidSince then sigValidSince else pkeyValidSince
  let validUntil :=
    if pkeyValidUntil < sigValidUntil then pkeyValidUntil else sigValidUntil
  (if now + maxValidity < validSince then now + maxValidity else validSince,
   if now + maxValidity < validUntil then now + maxValidity else validUntil)

/-- The claim's reading of the validity arithmetic, for comparison:
validSince = max of the ValidSince inputs, validUntil = min of the
ValidUntil inputs, and only when the window exceeds maxValidity is
validUntil pulled down to validSince + maxValidity (and then to
now + maxValidity). -/
def UpdateSectionValidityClaimed (now pkeyValidSince pkeyValidUntil
    sigValidSince sigValidUntil maxValidity : Int) : Int × Int :=
  let validSince := max pkeyValidSince sigValidSince
  let validUntil := min pkeyValidUntil sigValidUntil
  if maxValidity < validUntil - validSince then
    (validSince, min (validSince + maxValidity) (now + maxValidity))
  else
    (validSince, validUntil)

/-- One row of TestUpdateSectionValidity (src/unnamed/part_000): section
kind (0 assertion, 1 shard, 2 zone), the four validity inputs, the cap, and
the expected stored window. -/
structure UpdateValidityTestRow where
  kind : Nat
  pkeyValidSince : Int
  pkeyValidUntil : Int
  sigValidSince : Int
  sigValidUntil : Int
  maxVal : Int
  wantValidSince : Int
  wantValidUntil : Int
deriving DecidableEq, Repr

/-- The non-nil rows of TestUpdateSectionValidity, translated from
src/unnamed/part_000 lines 66-85 (times relative to now, durations in
seconds). -/
def TestUpdateSectionValidityRows (now : Int) : List UpdateValidityTestRow :=
  [⟨0, now+1, now+4, now+2, now+3, 4, now+2, now+3⟩,
   ⟨0, now+2, now+3, now+1, now+4, 4, now+2, now+3⟩,
   ⟨0, now+1, now+3, now+2, now+4, 4, now+2, now+3⟩,
   ⟨0, now+2, now+4, now+1, now+3, 4, now+2, now+3⟩,
   ⟨0, now+2, now+4, now+1, now+3, 2, now+2, now+2⟩,
   ⟨0, now+2, now+4, now+1, now+3, 1, now+1, now+1⟩,
   ⟨1, now+1, now+4, now+2, now+3, 4, now+2, now+3⟩,
   ⟨1, now+2, now+3, now+1, now+4, 4, now+2, now+3⟩,
   ⟨1, now+1, now+3, now+2, now+4, 4, now+2, now+3⟩,
   ⟨1, now+2, now+4, now+1, now+3, 4, now+2, now+3⟩,
   ⟨1, now+2, now+4, now+1, now+3, 2, now+2, now+2⟩,
   ⟨1, now+2, now+4, now+1, now+3, 1, now+1, now+1⟩,
   ⟨2, now+1, now+4, now+2, now+3, 4, now+2, now+3⟩,
   ⟨2, now+2, now+3, now+1, now+4, 4, now+2, now+3⟩,
   ⟨2, now+1, now+3, now+2, now+4, 4, now+2, now+3⟩,
   ⟨2, now+2, now+4, now+1, now+3, 4, now+2, now+3⟩,
   ⟨2, now+2, now+4, now+1, now+3, 2, now+2, now+2⟩,
   ⟨2, now+2, now+4, now+1, now+3, 1, now+1, now+1⟩]

/-- The modelled UpdateSectionValidity reproduces every expected output of
the repository's own test TestUpdateSectionValidity, at every base time. -/
theorem updateSectionValidity_passes_test (now : Int) :
    ∀ r ∈ TestUpdateSectionValidityRows now,
      UpdateSectionValidity now r.pkeyValidSince r.pkeyValidUntil
        r.sigValidSince r.sigValidUntil r.maxVal =
        (r.wantValidSince, r.wantValidUntil) := by
  intro r hr
  fin_cases hr <;>
    simp only [UpdateSectionValidity, Prod.mk.injEq] <;>
    constructor <;> split_ifs <;> omega

/-- C1 (counterexample): on the spec's own scenario (pkey window
[now+2, now+4], sig window [now+1, now+3], cap 1s, taking now = 0) the
claim's algorithm leaves the window at (now+2, now+3) - the window size
min - max = 1 does not exceed the cap, so the claim performs no shrink -
while the repository's test TestUpdateSectionValidity demands
(now+1, now+1): both endpoints are clamped to now + maxValidity
independently of the window size. -/
theorem updateSectionValidity_claim_false :
    UpdateSectionValidityClaimed 0 2 4 1 3 1 = (2, 3) ∧
    UpdateSectionValidity 0 2 4 1 3 1 = (1, 1) ∧
    (⟨0, 2, 4, 1, 3, 1, 1, 1⟩ : UpdateValidityTestRow) ∈
      TestUpdateSectionValidityRows 0 ∧
    ((2 : Int), (3 : Int)) ≠ ((1 : Int), (1 : Int)) := by
  refine ⟨by decide, by decide, by decide, by decide⟩

/-- C1 (amended): UpdateSectionValidity sets
validSince = min(max(pkeyValidSince, sigValidSince), now + maxValidity) and
validUntil = min(min(pkeyValidUntil, sigValidUntil), now + maxValidity):
the start is the later of the two since-inputs and the end the earlier of
the two until-inputs, and each endpoint is then clamped, independently of
the size of the window, so that it never exceeds now + maxValidity. -/
theorem updateSectionValidity_clamps_endpoints (now pkeyValidSince
    pkeyValidUntil sigValidSince sigValidUntil maxValidity : Int) :
    UpdateSectionValidity now pkeyValidSince pkeyValidUntil sigValidSince
      sigValidUntil maxValidity =
      (min (max pkeyValidSince sigValidSince) (now + maxValidity),
       min (min pkeyValidUntil sigValidUntil) (now + maxValidity)) := by
  simp only [UpdateSectionValidity, Prod.mk.injEq, min_def, max_def]
  constructor <;> split_ifs <;> omega

/-! ## Three-way comparison combinators

The rainslib CompareTo methods (objects.go) are chains of
"if x < y { return -1 } else if x > y { return 1 }" steps falling through
to the next field.  One such step on a pair of values is cmpInt (for
integer-valued fields) or lexCompare (for Go strings and byte slices,
which Go compares lexicographically, and which also embeds bytes.Compare);
the else-fallthrough is cmpLex, which keeps the first comparison result
that is non-zero.  The chains in the definitions below unfold to exactly
the if/else-if sequences of the source. -/

/-- One Go comparison step on integers: -1, 1 or 0 for smaller, greater,
equal. -/
def cmpInt (a b : Int) : Int := if a < b then -1 else if b < a then 1 else 0

/-- Lexicographic three-way comparison of lists, with a proper prefix
ordered first: the semantics of Go bytes.Compare and of Go string
comparison. -/
def lexCompare (α : Type) [LinearOrder α] : List α → List α → Int
  | [], [] => 0
  | [], _ :: _ => -1
  | _ :: _, [] => 1
  | a :: as, b :: bs => if a < b then -1 else if b < a then 1 else lexCompare α as bs

/-- Else-fallthrough of comparison chains: the second comparison only
matters when the first is 0. -/
def cmpLex (a b : Int) : Int := if a = 0 then b else a

/-- Comparison of pairs: first component first, second on ties. -/
def cmpProd {α β : Type} (f : α → α → Int) (g : β → β → Int)
    (x y : α × β) : Int :=
  cmpLex (f x.1 y.1) (g x.2 y.2)

/-- Comparison of sums: all left values before all right values. -/
def cmpSum {α β : Type} (f : α → α → Int) (g : β → β → Int) :
    α ⊕ β → α ⊕ β → Int
  | .inl a, .inl b => f a b
  | .inl _, .inr _ => -1
  | .inr _, .inl _ => 1
  | .inr a, .inr b => g a b

/-- A function c is a strict three-way comparison: antisymmetric, zero
exactly on equal arguments, valued in {-1, 0, 1}, and transitive in its
strict part. -/
structure IsCmp {α : Type} (c : α → α → Int) : Prop where
  flip : ∀ a b, c b a = -c a b
  zero : ∀ a b, c a b = 0 ↔ a = b
  rng : ∀ a b, c a b = -1 ∨ c a b = 0 ∨ c a b = 1
  ltTrans : ∀ a b d, c a b = -1 → c b d = -1 → c a d = -1

theorem isCmp_cmpInt : IsCmp cmpInt := by
  constructor
  · intro a b; unfold cmpInt; split_ifs <;> omega
  · intro a b; unfold cmpInt
    split_ifs <;> simp <;> omega
  · intro a b; unfold cmpInt; split_ifs <;> omega
  · intro a b d hab hbd; unfold cmpInt at *; split_ifs at * <;> omega

theorem lexCompare_flip (α : Type) [LinearOrder α] :
    ∀ a b : List α, lexCompare α b a = -lexCompare α a b := by
  intro a
  induction a with
  | nil => intro b; cases b <;> simp [lexCompare]
  | cons x xs ih =>
    intro b
    cases b with
    | nil => simp [lexCompare]
    | cons y ys =>
      simp only [lexCompare]
      rcases lt_trichotomy x y with h | h | h
      · simp [h, asymm h]
      · subst h; simp [lt_irrefl, ih ys]
      · simp [h, asymm h]

theorem lexCompare_zero (α : Type) [LinearOrder α] :
    ∀ a b : List α, lexCompare α a b = 0 ↔ a = b := by
  intro a
  induction a with
  | nil => intro b; cases b <;> simp [lexCompare]
  | cons x xs ih =>
    intro b
    cases b with
    | nil => simp [lexCompare]
    | cons y ys =>
      simp only [lexCompare, List.cons.injEq]
      rcases lt_trichotomy x y with h | h | h
      · simp [h, ne_of_lt h]
      · subst h; simp [lt_irrefl, ih ys]
      · simp [h, asymm h, (ne_of_lt h).symm]

theorem lexCompare_rng (α : Type) [LinearOrder α] :
    ∀ a b : List α, lexCompare α a b = -1 ∨ lexCompare α a b = 0 ∨
      lexCompare α a b = 1 := by
  intro a
  induction a with
  | nil => intro b; cases b <;> simp [lexCompare]
  | cons x xs ih =>
    intro b
    cases b with
    | nil => simp [lexCompare]
    | cons y ys =>
      simp only [lexCompare]
      split_ifs <;> simp [ih ys]

theorem lexCompare_ltTrans (α : Type) [LinearOrder α] :
    ∀ a b d : List α, lexCompare α a b = -1 → lexCompare α b d = -1 →
      lexCompare α a d = -1 := by
  intro a
  induction a with
  | nil =>
    intro b d hab hbd
    cases b with
    | nil => simp [lexCompare] at hab
    | cons y ys =>
      cases d with
      | nil => simp [lexCompare] at hbd
      | cons z zs => simp [lexCompare]
  | cons x xs ih =>
    intro b d hab hbd
    cases b with
    | nil => simp [lexCompare] at hab
    | cons y ys =>
      cases d with
      | nil => simp [lexCompare] at hbd
      | cons z zs =>
        simp only [lexCompare] at hab hbd ⊢
        rcases lt_trichotomy x y with h1 | h1 | h1
        · rcases lt_trichotomy y z with h2 | h2 | h2
          · simp [lt_trans h1 h2]
          · subst h2; simp [h1]
          · rw [if_neg (asymm h2), if_pos h2] at hbd; omega
        · subst h1
          rcases lt_trichotomy x z with h2 | h2 | h2
          · simp [h2]
          · subst h2
            rw [if_neg (lt_irrefl x), if_neg (lt_irrefl x)] at hab hbd ⊢
            exact ih ys zs hab hbd
          · rw [if_neg (asymm h2), if_pos h2] at hbd; omega
        · rw [if_neg (asymm h1), if_pos h1] at hab; omega

theorem isCmp_lexCompare (α : Type) [LinearOrder α] : IsCmp (lexCompare α) :=
  ⟨lexCompare_flip α, lexCompare_zero α, lexCompare_rng α, lexCompare_ltTrans α⟩

theorem cmpLex_neg (a b : Int) : cmpLex (-a) (-b) = -cmpLex a b := by
  unfold cmpLex; split_ifs <;> omega

theorem cmpLex_eq_zero (a b : Int) : cmpLex a b = 0 ↔ a = 0 ∧ b = 0 := by
  unfold cmpLex
  split_ifs with h
  · subst h; simp
  · simp [h]

theorem isCmp_cmpProd {α β : Type} {f : α → α → Int} {g : β → β → Int}
    (hf : IsCmp f) (hg : IsCmp g) : IsCmp (cmpProd f g) := by
  constructor
  · intro a b
    simp only [cmpProd, hf.flip a.1 b.1, hg.flip a.2 b.2, cmpLex_neg]
  · intro a b
    rw [cmpProd, cmpLex_eq_zero, hf.zero, hg.zero, Prod.ext_iff]
  · intro a b
    unfold cmpProd cmpLex
    split_ifs
    · exact hg.rng a.2 b.2
    · rcases hf.rng a.1 b.1 with h | h | h <;> omega
  · intro a b d hab hbd
    unfold cmpProd cmpLex at *
    rcases hf.rng a.1 b.1 with h1 | h1 | h1
    · rcases hf.rng b.1 d.1 with h2 | h2 | h2
      · have h3 := hf.ltTrans a.1 b.1 d.1 h1 h2
        simp [h3]
      · have heq := (hf.zero b.1 d.1).mp h2
        rw [← heq]; simp [h1]
      · rw [h2] at hbd; simp at hbd
    · have heq := (hf.zero a.1 b.1).mp h1
      rw [h1] at hab; simp at hab
      rcases hf.rng b.1 d.1 with h2 | h2 | h2
      · rw [heq]; simp [h2]
      · have heq2 := (hf.zero b.1 d.1).mp h2
        have h0 : f a.1 d.1 = 0 := (hf.zero a.1 d.1).mpr (heq.trans heq2)
        rw [h2] at hbd; simp at hbd
        simp [h0, hg.ltTrans a.2 b.2 d.2 hab hbd]
      · rw [h2] at hbd; simp at hbd
    · rw [h1] at hab; simp at hab

theorem isCmp_cmpSum {α β : Type} {f : α → α → Int} {g : β → β → Int}
    (hf : IsCmp f) (hg : IsCmp g) : IsCmp (cmpSum f g) := by
  constructor
  · intro a b
    cases a <;> cases b <;> simp only [cmpSum] <;>
      first
        | exact hf.flip _ _
        | exact hg.flip _ _
        | decide
  · intro a b
    cases a <;> cases b <;> simp [cmpSum, hf.zero, hg.zero]
  · intro a b
    cases a <;> cases b <;> simp [cmpSum, hf.rng, hg.rng]
  · intro a b d hab hbd
    cases a <;> cases b <;> cases d <;> simp [cmpSum] at * <;>
      first
        | exact hf.ltTrans _ _ _ hab hbd
        | exact hg.ltTrans _ _ _ hab hbd

/-! ## rainslib objects and their comparison (src/rainslib/objects.go)

The Go object types hold dynamically typed payloads (interface values);
the payload is embedded as the tagged union ObjValue over the six payload
shapes the CompareTo switch supports (a Go value of any other dynamic type
falls into the same "return 0" default as a mismatched payload and is not
modelled separately).  Named string types (NamesetExpression) are distinct
Go dynamic types from string, hence the separate constructor.  An
out-of-range slice index in Go panics; functions that can reach one return
Option, with none for the panic. -/

def OTName : Int := 1

def OTIP6Addr : Int := 2

def OTIP4Addr : Int := 3

def OTRedirection : Int := 4

def OTDelegation : Int := 5

def OTNameset : Int := 6

def OTCertInfo : Int := 7

def OTServiceInfo : Int := 8

def OTRegistrar : Int := 9

def OTRegistrant : Int := 10

def OTInfraKey : Int := 11

def OTExtraKey : Int := 12

def OTNextKey : Int := 13

/-- The dynamically typed PublicKey.Key field: an ed25519 key is a byte
slice; any other algorithm's key is an unsupported dynamic type for
CompareTo. -/
inductive KeyData where
  | ed25519 (key : List Int)
  | unsupported
deriving DecidableEq, Repr

/-- rainslib.PublicKey (objects.go): typ is the Go Type field
(SignatureAlgorithmType). -/
structure PublicKey where
  typ : Int
  keySpace : Int
  key : KeyData
  validSince : Int
  validUntil : Int
deriving DecidableEq, Repr

/-- rainslib.NameObject (objects.go): a name with the object types the
alias is valid for. -/
structure NameObject where
  name : GoStr
  types : List Int
deriving DecidableEq, Repr

/-- rainslib.CertificateObject (objects.go): typ is the Go Type field
(ProtocolType). -/
structure CertificateObject where
  typ : Int
  usage : Int
  hashAlgo : Int
  data : List Int
deriving DecidableEq, Repr

/-- rainslib.ServiceInfo (objects.go). -/
structure ServiceInfo where
  name : GoStr
  port : Int
  priority : Int
deriving DecidableEq, Repr

/-- The dynamic type of an Object's Value field. -/
inductive ObjValue where
  | nameV (n : NameObject)
  | strV (s : GoStr)
  | pkeyV (p : PublicKey)
  | namesetV (s : GoStr)
  | certV (c : CertificateObject)
  | svcV (s : ServiceInfo)
deriving DecidableEq, Repr

/-- rainslib.Object (objects.go): typ is the Go Type field (ObjectType
tag); value the dynamically typed payload. -/
structure Object where
  typ : Int
  value : ObjValue
deriving DecidableEq, Repr

/-- PublicKey.CompareTo (objects.go lines 187-215): Type, KeySpace,
ValidSince, ValidUntil in order, then bytes.Compare of the keys when both
are ed25519 byte slices; a non-ed25519 or mismatched key falls through to
return 0 (with a log). -/
def PublicKey.CompareTo (p pkey : PublicKey) : Int :=
  cmpLex (cmpInt p.typ pkey.typ)
    (cmpLex (cmpInt p.keySpace pkey.keySpace)
      (cmpLex (cmpInt p.validSince pkey.validSince)
        (cmpLex (cmpInt p.validUntil pkey.validUntil)
          (match p.key, pkey.key with
           | .ed25519 k1, .ed25519 k2 => lexCompare Int k1 k2
           | _, _ => 0))))

/-- The loop of NameObject.CompareTo (objects.go lines 129-135): iterates
over n.Types indexing nameObj.Types at the same position; when n.Types is
longer, Go indexes past the end and panics (none). -/
def cmpTypesLoop : List Int → List Int → Option Int
  | [], _ => some 0
  | _ :: _, [] => none
  | t :: ts, u :: us =>
    if t < u then some (-1) else if u < t then some 1 else cmpTypesLoop ts us

/-- NameObject.CompareTo (objects.go lines 123-137): Name first (Go string
comparison), then the element-wise Types loop. -/
def NameObject.CompareTo (n nameObj : NameObject) : Option Int :=
  if lexCompare Char n.name nameObj.name = 0 then
    cmpTypesLoop n.types nameObj.types
  else some (lexCompare Char n.name nameObj.name)

/-- CertificateObject.CompareTo (objects.go lines 229-244): Type, Usage,
HashAlgo in order, then bytes.Compare of Data. -/
def CertificateObject.CompareTo (c cert : CertificateObject) : Int :=
  cmpLex (cmpInt c.typ cert.typ)
    (cmpLex (cmpInt c.usage cert.usage)
      (cmpLex (cmpInt c.hashAlgo cert.hashAlgo)
        (lexCompare Int c.data cert.data)))

/-- ServiceInfo.CompareTo (objects.go lines 268-283): Name (Go string
comparison), Port, Priority in order. -/
def ServiceInfo.CompareTo (s serviceInfo : ServiceInfo) : Int :=
  cmpLex (lexCompare Char s.name serviceInfo.name)
    (cmpLex (cmpInt s.port serviceInfo.port)
      (cmpInt s.priority serviceInfo.priority))

/-- The switch statement of Object.CompareTo on the two payloads: matching
dynamic types dispatch to that type's comparison; a mismatch logs and
falls through to return 0. -/
def compareValues : ObjValue → ObjValue → Option Int
  | .nameV v1, .nameV v2 => NameObject.CompareTo v1 v2
  | .strV v1, .strV v2 => some (lexCompare Char v1 v2)
  | .pkeyV v1, .pkeyV v2 => some (PublicKey.CompareTo v1 v2)
  | .namesetV v1, .namesetV v2 => some (lexCompare Char v1 v2)
  | .certV v1, .certV v2 => some (CertificateObject.CompareTo v1 v2)
  | .svcV v1, .svcV v2 => some (ServiceInfo.CompareTo v1 v2)
  | _, _ => some 0

/-- Object.CompareTo (objects.go lines 30-81): the tag (Type) decides
first; on equal tags the switch on the payload's dynamic type dispatches
to the payload comparison, and a payload whose dynamic type does not match
the other side's (or is unsupported) falls through to return 0 after a
log. -/
def Object.CompareTo (o obj : Object) : Option Int :=
  if o.typ < obj.typ then some (-1)
  else if obj.typ < o.typ then some 1
  else compareValues o.value obj.value

/-! ### Well-formed objects and the key embedding

CompareTo is only a total order on objects whose payload's dynamic type
matches their tag (and whose public keys are ed25519 byte slices); on such
objects each comparison equals a lexicographic comparison of a key tuple,
from which the order properties follow. -/

/-- Bytes of a PublicKey.Key ([] for an unsupported key type). -/
def keyBytes : KeyData → List Int
  | .ed25519 k => k
  | .unsupported => []

/-- All fields of a PublicKey inspected by its CompareTo, in comparison
order. -/
def pkKey (p : PublicKey) : Int × Int × Int × Int × List Int :=
  (p.typ, p.keySpace, p.validSince, p.validUntil, keyBytes p.key)

/-- All fields of a CertificateObject inspected by its CompareTo. -/
def certKey (c : CertificateObject) : Int × Int × Int × List Int :=
  (c.typ, c.usage, c.hashAlgo, c.data)

/-- All fields of a ServiceInfo inspected by its CompareTo. -/
def svcKey (s : ServiceInfo) : GoStr × Int × Int := (s.name, s.port, s.priority)

/-- All fields of a NameObject inspected by its CompareTo. -/
def nameKey (n : NameObject) : GoStr × List Int := (n.name, n.types)

abbrev cmpNameKey := cmpProd (lexCompare Char) (lexCompare Int)

abbrev cmpPkKey :=
  cmpProd cmpInt (cmpProd cmpInt (cmpProd cmpInt (cmpProd cmpInt (lexCompare Int))))

abbrev cmpCertKey := cmpProd cmpInt (cmpProd cmpInt (cmpProd cmpInt (lexCompare Int)))

abbrev cmpSvcKey := cmpProd (lexCompare Char) (cmpProd cmpInt cmpInt)

abbrev PayloadKey :=
  (GoStr × List Int) ⊕ (GoStr ⊕ ((Int × Int × Int × Int × List Int) ⊕
    (GoStr ⊕ ((Int × Int × Int × List Int) ⊕ (GoStr × Int × Int)))))

/-- Key of a payload: its fields in comparison order, injected into the
sum of the six payload key shapes. -/
def payloadKey : ObjValue → PayloadKey
  | .nameV n => .inl (nameKey n)
  | .strV s => .inr (.inl s)
  | .pkeyV p => .inr (.inr (.inl (pkKey p)))
  | .namesetV s => .inr (.inr (.inr (.inl s)))
  | .certV c => .inr (.inr (.inr (.inr (.inl (certKey c)))))
  | .svcV s => .inr (.inr (.inr (.inr (.inr (svcKey s)))))

abbrev cmpPayloadKey :=
  cmpSum cmpNameKey (cmpSum (lexCompare Char) (cmpSum cmpPkKey
    (cmpSum (lexCompare Char) (cmpSum cmpCertKey cmpSvcKey))))

/-- Key of a whole object: tag first, then the payload key. -/
def objKey (o : Object) : Int × PayloadKey := (o.typ, payloadKey o.value)

abbrev cmpObjKey := cmpProd cmpInt cmpPayloadKey

theorem isCmp_cmpObjKey : IsCmp cmpObjKey :=
  isCmp_cmpProd isCmp_cmpInt
    (isCmp_cmpSum (isCmp_cmpProd (isCmp_lexCompare Char) (isCmp_lexCompare Int))
      (isCmp_cmpSum (isCmp_lexCompare Char)
        (isCmp_cmpSum
          (isCmp_cmpProd isCmp_cmpInt (isCmp_cmpProd isCmp_cmpInt
            (isCmp_cmpProd isCmp_cmpInt (isCmp_cmpProd isCmp_cmpInt
              (isCmp_lexCompare Int)))))
          (isCmp_cmpSum (isCmp_lexCompare Char)
            (isCmp_cmpSum
              (isCmp_cmpProd isCmp_cmpInt (isCmp_cmpProd isCmp_cmpInt
                (isCmp_cmpProd isCmp_cmpInt (isCmp_lexCompare Int))))
              (isCmp_cmpProd (isCmp_lexCompare Char)
                (isCmp_cmpProd isCmp_cmpInt isCmp_cmpInt)))))))

/-- An object is well formed (relative to a common name-object Types
length L) when its payload's dynamic type is the one its tag calls for,
its public key (if any) is an ed25519 byte slice, and (for a name object)
its Types list has length L.  Go code producing objects (the zonefile
parser, the wire decoder) only builds such payloads. -/
def WfObject (L : Nat) (o : Object) : Prop :=
  match o.value with
  | .nameV n => o.typ = OTName ∧ n.types.length = L
  | .strV _ => o.typ = OTIP6Addr ∨ o.typ = OTIP4Addr ∨ o.typ = OTRedirection ∨
      o.typ = OTRegistrar ∨ o.typ = OTRegistrant
  | .pkeyV p => (o.typ = OTDelegation ∨ o.typ = OTInfraKey ∨
      o.typ = OTExtraKey ∨ o.typ = OTNextKey) ∧ ∃ k, p.key = KeyData.ed25519 k
  | .namesetV _ => o.typ = OTNameset
  | .certV _ => o.typ = OTCertInfo
  | .svcV _ => o.typ = OTServiceInfo

/-- Index of a payload's dynamic type. -/
def kindIdx : ObjValue → Int
  | .nameV _ => 0
  | .strV _ => 1
  | .pkeyV _ => 2
  | .namesetV _ => 3
  | .certV _ => 4
  | .svcV _ => 5

/-- Payload dynamic type called for by an object tag. -/
def kindOfTag (t : Int) : Int :=
  if t = 1 then 0
  else if t = 6 then 3
  else if t = 7 then 4
  else if t = 8 then 5
  else if t = 5 ∨ t = 11 ∨ t = 12 ∨ t = 13 then 2
  else 1

theorem wf_kindOfTag (L : Nat) (o : Object) (ho : WfObject L o) :
    kindOfTag o.typ = kindIdx o.value := by
  unfold WfObject at ho
  rcases hv : o.value with n | s | p | s | c | s <;> rw [hv] at ho
  · rw [ho.1]; rfl
  · rcases ho with h | h | h | h | h <;> rw [h] <;> rfl
  · rcases ho.1 with h | h | h | h <;> rw [h] <;> rfl
  · rw [ho]; rfl
  · rw [ho]; rfl
  · rw [ho]; rfl

theorem cmpTypesLoop_eq_lexCompare (ts : List Int) :
    ∀ us : List Int, ts.length = us.length →
      cmpTypesLoop ts us = some (lexCompare Int ts us) := by
  induction ts with
  | nil =>
    intro us h
    cases us with
    | nil => rfl
    | cons u us => simp at h
  | cons t ts ih =>
    intro us h
    cases us with
    | nil => simp at h
    | cons u us =>
      simp only [cmpTypesLoop, lexCompare]
      split_ifs
      · rfl
      · rfl
      · exact ih us (by simpa using h)

theorem nameObject_compareTo_rep (n m : NameObject)
    (h : n.types.length = m.types.length) :
    NameObject.CompareTo n m = some (cmpNameKey (nameKey n) (nameKey m)) := by
  unfold NameObject.CompareTo cmpNameKey cmpProd nameKey cmpLex
  by_cases h0 : lexCompare Char n.name m.name = 0
  · simp [h0, cmpTypesLoop_eq_lexCompare n.types m.types h]
  · simp [h0]

theorem publicKey_compareTo_rep (p q : PublicKey)
    (hp : ∃ k, p.key = KeyData.ed25519 k) (hq : ∃ k, q.key = KeyData.ed25519 k) :
    PublicKey.CompareTo p q = cmpPkKey (pkKey p) (pkKey q) := by
  obtain ⟨kp, hkp⟩ := hp
  obtain ⟨kq, hkq⟩ := hq
  unfold PublicKey.CompareTo cmpPkKey cmpProd pkKey keyBytes
  rw [hkp, hkq]

theorem compareValues_rep (L : Nat) (xt : Int) (xv : ObjValue) (yt : Int)
    (yv : ObjValue) (hx : WfObject L ⟨xt, xv⟩) (hy : WfObject L ⟨yt, yv⟩)
    (heq : xt = yt) :
    compareValues xv yv = some (cmpPayloadKey (payloadKey xv) (payloadKey yv)) := by
  have t1 : kindOfTag xt = kindIdx xv := wf_kindOfTag L ⟨xt, xv⟩ hx
  have t2 : kindOfTag yt = kindIdx yv := wf_kindOfTag L ⟨yt, yv⟩ hy
  rw [heq, t2] at t1
  rcases xv with n | s | p | s | c | s <;>
    rcases yv with n2 | s2 | p2 | s2 | c2 | s2 <;>
    simp only [kindIdx] at t1 <;>
    first
      | (exact absurd t1 (by decide))
      | simp only [compareValues, payloadKey, cmpPayloadKey, cmpSum]
  · obtain ⟨-, hx2⟩ := hx
    obtain ⟨-, hy2⟩ := hy
    exact nameObject_compareTo_rep n n2 (hx2.trans hy2.symm)
  · obtain ⟨-, hx2⟩ := hx
    obtain ⟨-, hy2⟩ := hy
    rw [publicKey_compareTo_rep p p2 hx2 hy2]
  · rfl
  · rfl

theorem object_compareTo_rep (L : Nat) (x y : Object)
    (hx : WfObject L x) (hy : WfObject L y) :
    Object.CompareTo x y = some (cmpObjKey (objKey x) (objKey y)) := by
  obtain ⟨xt, xv⟩ := x
  obtain ⟨yt, yv⟩ := y
  unfold Object.CompareTo
  by_cases h1 : xt < yt
  · have hc : cmpInt xt yt = -1 := by unfold cmpInt; simp [h1]
    simp [h1, cmpObjKey, cmpProd, objKey, cmpLex, hc]
  · by_cases h2 : yt < xt
    · have hc : cmpInt xt yt = 1 := by unfold cmpInt; simp [h1, h2]
      simp [h1, h2, cmpObjKey, cmpProd, objKey, cmpLex, hc]
    · have heq : xt = yt := le_antisymm (not_lt.mp h2) (not_lt.mp h1)
      have hc : cmpInt xt yt = 0 := by unfold cmpInt; simp [h1, h2]
      simp only [if_neg h1, if_neg h2, cmpObjKey, cmpProd, objKey, cmpLex,
        hc, if_pos]
      exact compareValues_rep L xt xv yt yv hx hy heq

theorem objKey_inj (L : Nat) (x y : Object)
    (hx : WfObject L x) (hy : WfObject L y) (h : objKey x = objKey y) :
    x = y := by
  obtain ⟨xt, xv⟩ := x
  obtain ⟨yt, yv⟩ := y
  unfold objKey at h
  simp only [Prod.mk.injEq] at h
  obtain ⟨ht, hp⟩ := h
  subst ht
  rcases xv with n | s | p | s | c | s <;> rcases yv with n2 | s2 | p2 | s2 | c2 | s2 <;>
    simp [payloadKey, nameKey, pkKey, certKey, svcKey] at hp
  · cases n; cases n2; simp_all
  · rw [hp]
  · obtain ⟨-, k1, hk1⟩ := hx
    obtain ⟨-, k2, hk2⟩ := hy
    rw [hk1, hk2] at hp
    simp only [keyBytes] at hp
    cases p; cases p2
    simp only at hk1 hk2
    simp_all
  · rw [hp]
  · cases c; cases c2; simp_all
  · cases s; cases s2; simp_all

/-- A name object whose Types list is a strict prefix of the next one's. -/
def nameObjectPrefix : Object := ⟨OTName, .nameV ⟨goStr "a", [2]⟩⟩

/-- A name object equal to nameObjectPrefix except for one extra entry in
Types. -/
def nameObjectLonger : Object := ⟨OTName, .nameV ⟨goStr "a", [2, 3]⟩⟩

/-- C7 (counterexample): Object.CompareTo is not a total order on all
objects and 0 does not imply equality: for two distinct name objects whose
Types lists agree on a strict prefix, CompareTo returns 0 in one direction
(the loop over the shorter Types list finds no difference), and in the
other direction Go indexes past the end of the shorter list and panics
(none), so antisymmetry fails as well. -/
theorem object_compareTo_claim_false :
    Object.CompareTo nameObjectPrefix nameObjectLonger = some 0 ∧
    nameObjectPrefix ≠ nameObjectLonger ∧
    Object.CompareTo nameObjectLonger nameObjectPrefix = none :=
  ⟨by decide, by decide, by decide⟩

/-- C7 (amended): restricted to well-formed objects - each payload's
dynamic type is the one its tag calls for, public keys are ed25519 byte
slices, and the Types lists of name objects share a common length L -
Object.CompareTo never panics and is a total order ordering first by tag
and then lexicographically on payload: it is antisymmetric
(x.CompareTo y = -(y.CompareTo x)), returns 0 exactly on equal objects,
and its strict part is transitive. -/
theorem object_compareTo_total_order (L : Nat) (x y z : Object)
    (hx : WfObject L x) (hy : WfObject L y) (hz : WfObject L z) :
    (∃ r, Object.CompareTo x y = some r ∧ Object.CompareTo y x = some (-r)) ∧
    (Object.CompareTo x y = some 0 ↔ x = y) ∧
    (Object.CompareTo x y = some (-1) → Object.CompareTo y z = some (-1) →
      Object.CompareTo x z = some (-1)) := by
  have hk := isCmp_cmpObjKey
  refine ⟨⟨cmpObjKey (objKey x) (objKey y),
    object_compareTo_rep L x y hx hy, ?_⟩, ?_, ?_⟩
  · rw [object_compareTo_rep L y x hy hx, hk.flip (objKey x) (objKey y)]
  · rw [object_compareTo_rep L x y hx hy]
    simp only [Option.some.injEq]
    constructor
    · intro h
      exact objKey_inj L x y hx hy ((hk.zero _ _).mp h)
    · intro h
      subst h
      exact (hk.zero _ _).mpr rfl
  · intro h1 h2
    rw [object_compareTo_rep L x y hx hy] at h1
    rw [object_compareTo_rep L y z hy hz] at h2
    rw [object_compareTo_rep L x z hx hz]
    simp only [Option.some.injEq] at h1 h2 ⊢
    exact hk.ltTrans _ _ _ h1 h2

def ip4ObjectA : Object := ⟨OTIP4Addr, .strV (goStr "10.0.0.1")⟩

def ip4ObjectB : Object := ⟨OTIP4Addr, .strV (goStr "10.0.0.2")⟩

def redirObject : Object := ⟨OTRedirection, .strV (goStr "ns.ethz.ch")⟩

/-- The amended C7 order properties hold at three concrete well-formed
objects. -/
theorem object_compareTo_total_order_witness :
    (∃ r, Object.CompareTo ip4ObjectA ip4ObjectB = some r ∧
      Object.CompareTo ip4ObjectB ip4ObjectA = some (-r)) ∧
    (Object.CompareTo ip4ObjectA ip4ObjectB = some 0 ↔ ip4ObjectA = ip4ObjectB) ∧
    (Object.CompareTo ip4ObjectA ip4ObjectB = some (-1) →
      Object.CompareTo ip4ObjectB redirObject = some (-1) →
      Object.CompareTo ip4ObjectA redirObject = some (-1)) :=
  object_compareTo_total_order 0 ip4ObjectA ip4ObjectB redirObject
    (Or.inr (Or.inl rfl)) (Or.inr (Or.inl rfl)) (Or.inr (Or.inr (Or.inl rfl)))

/-! ## The resolution engine (src/unnamed/part_002, rainsd engine.go)

The engine's process-wide caches (assertionsCache, negAssertionCache,
pendingQueries, pendingSignatures) have no implementation in the source
tree; they are modelled from the spec as lists inside an explicit
EngineState, with the operations the engine calls (Add, Get,
GetAllAndDelete) modelled from the spec's cache contracts (sections 4.2 to
4.4).  Outgoing traffic (sendQueryAnswer after message parsing,
sendNotificationMsg, sendQuery) and the normalChannel are modelled as
lists of emitted values appended to the state; message-parser failures
that would suppress a send are not modelled.  Wall-clock reads
(time.Now().Unix()) are the parameter now; random token minting
(rainslib.GenerateToken) is the parameter freshToken; the delegation
resolver (getDelegationAddress) and the server's own address
(serverConnInfo) are parameters. -/

/-- 16-byte opaque tokens, modelled as integers. -/
abbrev Token := Int

/-- The all-zero token [16]byte{} passed when asserting contained
sections. -/
def emptyToken : Token := 0

/-- A connection endpoint, opaque to the engine. -/
abbrev ConnInfo := Int

/-- Query option constants (rainslib), numbered as in the rainsdig option
table (src/cmd/rainsdig/rainsdig.go). -/
def QOCachedAnswersOnly : Int := 4

def QOExpiredAssertionsOk : Int := 5

def QOTokenTracing : Int := 6

/-- Modelled from the spec: the rainslib.NoAssertionAvail notification
type; its numeric value is immaterial to the engine. -/
def NoAssertionAvail : Int := 504

/-- The engine-relevant configuration: per-kind cache validity caps and
the pending-query lifetime bound, in seconds. -/
structure Config where
  MaxCacheAssertionValidity : Int
  MaxCacheShardValidity : Int
  MaxCacheZoneValidity : Int
  AssertionQueryValidity : Int
deriving DecidableEq, Repr

/-- rainslib.AssertionSection.  ValidFrom()/ValidUntil() - the section's
effective validity window, fixed before assert is called - are modelled as
the stored fields validFrom/validUntil. -/
structure AssertionSection where
  context : GoStr
  subjectZone : GoStr
  subjectName : GoStr
  content : List Object
  validFrom : Int
  validUntil : Int
deriving DecidableEq, Repr

/-- rainslib.ShardSection. -/
structure ShardSection where
  context : GoStr
  subjectZone : GoStr
  rangeFrom : GoStr
  rangeTo : GoStr
  content : List AssertionSection
  validFrom : Int
  validUntil : Int
deriving DecidableEq, Repr

/-- One element of a zone's Content: the engine switch accepts assertions
and shards and logs-and-skips any other section type. -/
inductive ZoneContent where
  | assertionC (a : AssertionSection)
  | shardC (s : ShardSection)
  | otherC
deriving DecidableEq, Repr

/-- rainslib.ZoneSection. -/
structure ZoneSection where
  context : GoStr
  subjectZone : GoStr
  content : List ZoneContent
  validFrom : Int
  validUntil : Int
deriving DecidableEq, Repr

/-- rainslib.MessageSectionWithSig: an assertion, shard or zone. -/
inductive Section where
  | assertionS (a : AssertionSection)
  | shardS (s : ShardSection)
  | zoneS (z : ZoneSection)
deriving DecidableEq, Repr

/-- rainslib.QuerySection. -/
structure QuerySection where
  context : GoStr
  name : GoStr
  expires : Int
  token : Token
  qtype : Int
  options : List Int
deriving DecidableEq, Repr

/-- QuerySection.ContainsOption: membership in the option list. -/
def QuerySection.ContainsOption (q : QuerySection) (o : Int) : Bool :=
  q.options.contains o

/-- An assertionCacheValue with the 4-tuple key it is stored under. -/
structure AssertionCacheEntry where
  context : GoStr
  zone : GoStr
  name : GoStr
  objType : Int
  authoritative : Bool
  sec : AssertionSection
  validFrom : Int
  validUntil : Int
deriving DecidableEq, Repr

/-- A negativeAssertionCacheValue with the (context, zone) key it is
stored under. -/
structure NegAssertionCacheEntry where
  context : GoStr
  zone : GoStr
  authoritative : Bool
  sec : Section
  validFrom : Int
  validUntil : Int
deriving DecidableEq, Repr

/-- A pendingQuerySetValue (connInfo, token, validUntil) with the
4-tuple key it was added under; GetAllAndDelete retrieves by the stored
token. -/
structure PendingQueryEntry where
  context : GoStr
  zone : GoStr
  name : GoStr
  qtype : Int
  connInfo : ConnInfo
  token : Token
  validUntil : Int
deriving DecidableEq, Repr

/-- msgSectionSender: a section with its sender and token, re-enqueued on
the normal channel when a delegation wakes it. -/
structure MsgSectionSender where
  sec : Section
  sender : ConnInfo
  token : Token
deriving DecidableEq, Repr

/-- An entry of the pending-signature cache, keyed by (context, zone). -/
structure PendingSignatureEntry where
  context : GoStr
  zone : GoStr
  value : MsgSectionSender
deriving DecidableEq, Repr

/-- A message emitted by the engine. -/
inductive OutMsg where
  | queryAnswer (sec : Section) (receiver : ConnInfo) (token : Token)
  | notificationMsg (token : Token) (receiver : ConnInfo) (ntype : Int)
  | forwardedQuery (context : GoStr) (zone : GoStr) (validUntil : Int)
      (qtype : Int) (token : Token) (receiver : ConnInfo)
deriving DecidableEq, Repr

/-- The engine's mutable state: the four caches and the emitted traffic. -/
structure EngineState where
  assertionsCache : List AssertionCacheEntry
  negAssertionCache : List NegAssertionCacheEntry
  pendingQueries : List PendingQueryEntry
  pendingSignatures : List PendingSignatureEntry
  normalChannelOut : List MsgSectionSender
  out : List OutMsg
deriving DecidableEq, Repr

def emptyState : EngineState := ⟨[], [], [], [], [], []⟩

/-- Modelled from the spec: assertionsCache.Add records an entry under its
4-tuple key (capacity-driven eviction is outside the model). -/
def assertionsCacheAdd (st : EngineState) (e : AssertionCacheEntry) :
    EngineState :=
  {st with assertionsCache := st.assertionsCache ++ [e]}

/-- Modelled from the spec: assertionsCache.Get returns all entries under
the key; when allowExpired is false, entries whose validUntil has passed
are dropped; the Go ok result is true exactly when the result is
non-empty. -/
def assertionsCacheGet (now : Int) (st : EngineState)
    (context zone name : GoStr) (qtype : Int) (allowExpired : Bool) :
    List AssertionCacheEntry :=
  st.assertionsCache.filter (fun e =>
    e.context == context && e.zone == zone && e.name == name &&
    e.objType == qtype && (allowExpired || decide (now ≤ e.validUntil)))

/-- Modelled from the spec: negAssertionCache.Add records an entry under
(context, zone). -/
def negAssertionCacheAdd (st : EngineState) (e : NegAssertionCacheEntry) :
    EngineState :=
  {st with negAssertionCache := st.negAssertionCache ++ [e]}

/-- Modelled from the spec: a stored shard answers a point query for a
name strictly inside its range ("" standing for an infinite bound); a
stored zone answers any name. -/
def negEntryMatches (context zone name : GoStr)
    (e : NegAssertionCacheEntry) : Bool :=
  e.context == context && e.zone == zone &&
  (match e.sec with
   | .shardS s =>
     (s.rangeFrom == [] || decide (lexCompare Char s.rangeFrom name = -1)) &&
     (s.rangeTo == [] || decide (lexCompare Char name s.rangeTo = -1))
   | .zoneS _ => true
   | .assertionS _ => false)

/-- Modelled from the spec: negAssertionCache.Get returns an entry whose
interval contains the queried name, if any. -/
def negAssertionCacheGet (st : EngineState) (context zone name : GoStr) :
    Option NegAssertionCacheEntry :=
  st.negAssertionCache.find? (negEntryMatches context zone name)

/-- Modelled from the spec: pendingQueries.GetAllAndDelete atomically
removes and returns every waiter stored under the given upstream token. -/
def pendingQueriesGetAllAndDelete (token : Token) (st : EngineState) :
    List PendingQueryEntry × EngineState :=
  (st.pendingQueries.filter (fun v => v.token == token),
   {st with pendingQueries :=
      st.pendingQueries.filter (fun v => !(v.token == token))})

/-- Modelled from the spec: pendingSignatures.GetAllAndDelete removes and
returns every entry stored under (context, zone). -/
def pendingSignaturesGetAllAndDelete (context zone : GoStr)
    (st : EngineState) : List PendingSignatureEntry × EngineState :=
  (st.pendingSignatures.filter (fun e =>
     e.context == context && e.zone == zone),
   {st with pendingSignatures := st.pendingSignatures.filter (fun e =>
      !(e.context == context && e.zone == zone))})

/-- sendQueryAnswer (engine.go lines 311-320): wraps the section in a
message tagged with the token and sends it (parser failures that would
suppress the send are not modelled). -/
def sendQueryAnswer (sec : Section) (sender : ConnInfo) (token : Token)
    (st : EngineState) : EngineState :=
  {st with out := st.out ++ [OutMsg.queryAnswer sec sender token]}

/-- Emission of a notification message to a sender. -/
def sendNotificationMsg (token : Token) (sender : ConnInfo) (ntype : Int)
    (st : EngineState) : EngineState :=
  {st with out := st.out ++ [OutMsg.notificationMsg token sender ntype]}

/-- Emission of a forwarded query to a delegate. -/
def sendQuery (context zone : GoStr) (validUntil : Int) (qtype : Int)
    (token : Token) (delegate : ConnInfo) (st : EngineState) : EngineState :=
  {st with out := st.out ++
    [OutMsg.forwardedQuery context zone validUntil qtype token delegate]}

/-- getAssertionValidity (engine.go lines 143-155): the assertion's own
window, with validUntil reduced to now + MaxCacheAssertionValidity when it
exceeds that bound; (0, 0, false) when validFrom itself lies beyond the
bound. -/
def getAssertionValidity (now : Int) (cfg : Config) (a : AssertionSection) :
    Int × Int × Bool :=
  if now + cfg.MaxCacheAssertionValidity < a.validFrom then (0, 0, false)
  else
    (a.validFrom,
     if now + cfg.MaxCacheAssertionValidity < a.validUntil then
       now + cfg.MaxCacheAssertionValidity
     else a.validUntil,
     true)

/-- getShardValidity (engine.go lines 185-197). -/
def getShardValidity (now : Int) (cfg : Config) (s : ShardSection) :
    Int × Int × Bool :=
  if now + cfg.MaxCacheShardValidity < s.validFrom then (0, 0, false)
  else
    (s.validFrom,
     if now + cfg.MaxCacheShardValidity < s.validUntil then
       now + cfg.MaxCacheShardValidity
     else s.validUntil,
     true)

/-- getZoneValidity (engine.go lines 233-245). -/
def getZoneValidity (now : Int) (cfg : Config) (z : ZoneSection) :
    Int × Int × Bool :=
  if now + cfg.MaxCacheZoneValidity < z.validFrom then (0, 0, false)
  else
    (z.validFrom,
     if now + cfg.MaxCacheZoneValidity < z.validUntil then
       now + cfg.MaxCacheZoneValidity
     else z.validUntil,
     true)

/-- shouldAssertionBeCached (engine.go lines 158-162): always true. -/
def shouldAssertionBeCached (_a : AssertionSection) : Bool := true

/-- shouldShardBeCached (engine.go lines 199-203): always true. -/
def shouldShardBeCached (_s : ShardSection) : Bool := true

/-- shouldZoneBeCached (engine.go lines 247-251): always true. -/
def shouldZoneBeCached (_z : ZoneSection) : Bool := true

/-- assertAssertion (engine.go lines 97-110): on an acceptable validity
window, caches the assertion under (context, zone, name, Content[0].Type)
and reports true; when the window starts too far in the future it drops
all pending queries waiting on the token and reports false (the getter's
returned validFrom of 0 is compared against now); none models the Go
index-out-of-range panic at a.Content[0] for an empty Content. -/
def assertAssertion (now : Int) (cfg : Config) (a : AssertionSection)
    (isAuthoritative : Bool) (token : Token) (st : EngineState) :
    Option (EngineState × Bool) :=
  match getAssertionValidity now cfg a with
  | (validFrom, validUntil, ok) =>
    if ok then
      if shouldAssertionBeCached a then
        match a.content.head? with
        | none => none
        | some o =>
          some (assertionsCacheAdd st
            ⟨a.context, a.subjectZone, a.subjectName, o.typ, isAuthoritative,
             a, validFrom, validUntil⟩, true)
      else some (st, true)
    else if validFrom < now then
      some ((pendingQueriesGetAllAndDelete token st).2, false)
    else some (st, true)

/-- handlePendingQueries (engine.go lines 128-139): drain all waiters for
the token and answer each one whose validUntil has not passed, tagging the
answer with the token stored in the waiter. -/
def handlePendingQueries (now : Int) (sec : Section) (token : Token)
    (st : EngineState) : EngineState :=
  match pendingQueriesGetAllAndDelete token st with
  | (values, st1) =>
    let answers := (values.filter (fun v => decide (now < v.validUntil))).map
      (fun v => OutMsg.queryAnswer sec v.connInfo v.token)
    {st1 with out := st1.out ++ answers}

/-- The delegation branch of handleAssertion: drain the
pending-signature cache for (context, zone) and re-enqueue the drained
sections on the normal channel. -/
def drainPendingSignatures (context zone : GoStr) (st : EngineState) :
    EngineState :=
  match pendingSignaturesGetAllAndDelete context zone st with
  | (sections, st1) =>
    {st1 with normalChannelOut :=
      st1.normalChannelOut ++ sections.map (fun e => e.value)}

/-- handleAssertion (engine.go lines 113-125): when Content[0] is a
delegation, wake the sections waiting on (context, zone); then trigger the
pending queries for the token; none models the panic at a.Content[0] for
an empty Content. -/
def handleAssertion (now : Int) (a : AssertionSection) (token : Token)
    (st : EngineState) : Option EngineState :=
  match a.content.head? with
  | none => none
  | some o =>
    let st1 :=
      if o.typ = OTDelegation then
        drainPendingSignatures a.context a.subjectZone st
      else st
    some (handlePendingQueries now (.assertionS a) token st1)

/-- The loop of assertShard over the shard's contained assertions, each
asserted with the empty token and its returned flag ignored. -/
def assertAssertionList (now : Int) (cfg : Config)
    (asserts : List AssertionSection) (isAuthoritative : Bool)
    (st : EngineState) : Option EngineState :=
  match asserts with
  | [] => some st
  | a :: rest =>
    match assertAssertion now cfg a isAuthoritative emptyToken st with
    | none => none
    | some (st1, _) => assertAssertionList now cfg rest isAuthoritative st1

/-- assertShard (engine.go lines 167-181): on an acceptable window, cache
the shard in the negative-assertion cache and assert each contained
assertion; when the window starts too far in the future, drop the pending
queries for the token and report false. -/
def assertShard (now : Int) (cfg : Config) (shard : ShardSection)
    (isAuthoritative : Bool) (token : Token) (st : EngineState) :
    Option (EngineState × Bool) :=
  match getShardValidity now cfg shard with
  | (validFrom, validUntil, ok) =>
    if ok then
      let st1 :=
        if shouldShardBeCached shard then
          negAssertionCacheAdd st
            ⟨shard.context, shard.subjectZone, isAuthoritative,
             .shardS shard, validFrom, validUntil⟩
        else st
      match assertAssertionList now cfg shard.content isAuthoritative st1 with
      | none => none
      | some st2 => some (st2, true)
    else if validFrom < now then
      some ((pendingQueriesGetAllAndDelete token st).2, false)
    else some (st, true)

/-- The loop of assertZone over the zone's content: assertions and shards
are asserted with the empty token; any other section type is logged and
skipped. -/
def assertZoneContentList (now : Int) (cfg : Config)
    (content : List ZoneContent) (isAuthoritative : Bool)
    (st : EngineState) : Option EngineState :=
  match content with
  | [] => some st
  | .assertionC a :: rest =>
    match assertAssertion now cfg a isAuthoritative emptyToken st with
    | none => none
    | some (st1, _) => assertZoneContentList now cfg rest isAuthoritative st1
  | .shardC s :: rest =>
    match assertShard now cfg s isAuthoritative emptyToken st with
    | none => none
    | some (st1, _) => assertZoneContentList now cfg rest isAuthoritative st1
  | .otherC :: rest => assertZoneContentList now cfg rest isAuthoritative st

/-- assertZone (engine.go lines 208-229). -/
def assertZone (now : Int) (cfg : Config) (zone : ZoneSection)
    (isAuthoritative : Bool) (token : Token) (st : EngineState) :
    Option (EngineState × Bool) :=
  match getZoneValidity now cfg zone with
  | (validFrom, validUntil, ok) =>
    if ok then
      let st1 :=
        if shouldZoneBeCached zone then
          negAssertionCacheAdd st
            ⟨zone.context, zone.subjectZone, isAuthoritative,
             .zoneS zone, validFrom, validUntil⟩
        else st
      match assertZoneContentList now cfg zone.content isAuthoritative st1 with
      | none => none
      | some st2 => some (st2, true)
    else if validFrom < now then
      some ((pendingQueriesGetAllAndDelete token st).2, false)
    else some (st, true)

/-- The outbound token chosen by query (engine.go lines 289-292): the
client's token under TokenTracing, a fresh token otherwise. -/
def outboundToken (freshToken : Token) (q : QuerySection) : Token :=
  if q.ContainsOption QOTokenTracing then q.token else freshToken

/-- The pending-query lifetime chosen by query (engine.go lines 293-296):
now + AssertionQueryValidity, lowered to the query's own expiration when
that is earlier. -/
def queryValidUntil (now : Int) (cfg : Config) (q : QuerySection) : Int :=
  if q.expires < now + cfg.AssertionQueryValidity then q.expires
  else now + cfg.AssertionQueryValidity

/-- The first loop of query (engine.go lines 257-265): the first
(zone, name) pair with an assertion-cache hit yields assertions[0]. -/
def assertionLookupLoop (now : Int) (q : QuerySection) (st : EngineState) :
    List ZoneAndName → Option AssertionSection
  | [] => none
  | zAn :: rest =>
    match assertionsCacheGet now st q.context zAn.zone zAn.name q.qtype
        (q.ContainsOption QOExpiredAssertionsOk) with
    | [] => assertionLookupLoop now q st rest
    | e :: _ => some e.sec

/-- The second loop of query (engine.go lines 267-274): the first
(zone, name) pair with a negative-assertion-cache hit yields that entry. -/
def negLookupLoop (q : QuerySection) (st : EngineState) :
    List ZoneAndName → Option NegAssertionCacheEntry
  | [] => none
  | zAn :: rest =>
    match negAssertionCacheGet st q.context zAn.zone zAn.name with
    | some e => some e
    | none => negLookupLoop q st rest

/-- The forwarding loop of query (engine.go lines 281-300): per
(zone, name) pair, a self-delegation answers NoAssertionAvail and stops;
otherwise a waiter carrying the outbound token is recorded and the query
is forwarded to the delegate. -/
def forwardLoop (now : Int) (cfg : Config) (serverConnInfo : ConnInfo)
    (getDelegationAddress : GoStr → GoStr → ConnInfo) (freshToken : Token)
    (q : QuerySection) (sender : ConnInfo) :
    List ZoneAndName → EngineState → EngineState
  | [], st => st
  | zAn :: rest, st =>
    let delegate := getDelegationAddress q.context zAn.zone
    if delegate == serverConnInfo then
      sendNotificationMsg q.token sender NoAssertionAvail st
    else
      let token := outboundToken freshToken q
      let validUntil := queryValidUntil now cfg q
      let st1 :=
        {st with pendingQueries := st.pendingQueries ++
          [⟨q.context, zAn.zone, zAn.name, q.qtype, sender, token,
            validUntil⟩]}
      let st2 := sendQuery q.context zAn.zone validUntil q.qtype token
        delegate st1
      forwardLoop now cfg serverConnInfo getDelegationAddress freshToken q
        sender rest st2

/-- query (engine.go lines 254-301): answer from the assertion cache, else
from the negative-assertion cache, else notify NoAssertionAvail under
CachedAnswersOnly, else forward to the delegate recording a pending
query. -/
def query (now : Int) (cfg : Config) (serverConnInfo : ConnInfo)
    (getDelegationAddress : GoStr → GoStr → ConnInfo) (freshToken : Token)
    (q : QuerySection) (sender : ConnInfo) (st : EngineState) : EngineState :=
  let zoneAndNames := getZoneAndName q.name
  match assertionLookupLoop now q st zoneAndNames with
  | some a => sendQueryAnswer (.assertionS a) sender q.token st
  | none =>
    match negLookupLoop q st zoneAndNames with
    | some e => sendQueryAnswer e.sec sender q.token st
    | none =>
      if q.ContainsOption QOCachedAnswersOnly then
        sendNotificationMsg q.token sender NoAssertionAvail st
      else
        forwardLoop now cfg serverConnInfo getDelegationAddress freshToken q
          sender zoneAndNames st

/-! ### Concrete engine scenario used by counterexamples and witnesses -/

def cexConfig : Config := ⟨100, 100, 100, 50⟩

/-- A client query for (., ethz.ch, IP4) with client token 5 and no
options (in particular no TokenTracing). -/
def cexQuery : QuerySection := ⟨goStr ".", goStr "ethz.ch", 100, 5, 3, []⟩

/-- A delegation resolver that forwards everything to endpoint 3. -/
def cexDelegation : GoStr → GoStr → ConnInfo := fun _ _ => 3

/-- An assertion answering cexQuery, valid [0, 90]. -/
def cexAnswer : AssertionSection :=
  ⟨goStr ".", goStr "ch", goStr "ethz",
   [⟨OTIP4Addr, .strV (goStr "127.0.0.1")⟩], 0, 90⟩

theorem filter_token_of_filter_not_token (token : Token)
    (l : List PendingQueryEntry) :
    (l.filter (fun v => !(v.token == token))).filter
      (fun v => v.token == token) = [] := by
  induction l with
  | nil => rfl
  | cons a l ih =>
    by_cases h : a.token = token
    · simp [h, ih]
    · simp [List.filter_cons, h, ih]

/-- C3 (amended): handlePendingQueries(S, t) removes, in one state
transition, exactly the pending-query entries stored under t; each removed
waiter whose own validUntil has not yet passed is answered by sending S to
that waiter's connInfo tagged with the token stored in the waiter entry -
the outbound token chosen when the query was forwarded, which equals the
client's original token only when TokenTracing was set - and every other
removed waiter is dropped; afterwards GetAllAndDelete(t) yields the empty
set, and no cache other than the pending-query cache changes. -/
theorem handlePendingQueries_spec (now : Int) (sec : Section)
    (token : Token) (st : EngineState) :
    (handlePendingQueries now sec token st).pendingQueries =
      st.pendingQueries.filter (fun v => !(v.token == token)) ∧
    (pendingQueriesGetAllAndDelete token
      (handlePendingQueries now sec token st)).1 = [] ∧
    (handlePendingQueries now sec token st).out = st.out ++
      ((st.pendingQueries.filter (fun v => v.token == token)).filter
        (fun v => decide (now < v.validUntil))).map
        (fun v => OutMsg.queryAnswer sec v.connInfo v.token) ∧
    (handlePendingQueries now sec token st).assertionsCache =
      st.assertionsCache ∧
    (handlePendingQueries now sec token st).negAssertionCache =
      st.negAssertionCache := by
  refine ⟨rfl, ?_, rfl, rfl, rfl⟩
  exact filter_token_of_filter_not_token token st.pendingQueries

/-- C3 (counterexample): starting from empty caches, the client query
cexQuery (token 5, TokenTracing unset) is forwarded with fresh token 7 and
a waiter storing token 7; when the answer section arrives under token 7,
handlePendingQueries tags the reply with the stored token 7, not with the
client's original token 5 - so the reply is not "tagged with the client's
original token" as the claim states. -/
theorem handlePendingQueries_claim_false :
    (handlePendingQueries 0 (Section.assertionS cexAnswer) 7
        (query 0 cexConfig 1 cexDelegation 7 cexQuery 2 emptyState)).out =
      [OutMsg.forwardedQuery (goStr ".") (goStr "ch") 50 3 7 3,
       OutMsg.queryAnswer (Section.assertionS cexAnswer) 2 7] ∧
    cexQuery.token = 5 ∧
    OutMsg.queryAnswer (Section.assertionS cexAnswer) 2 7 ≠
      OutMsg.queryAnswer (Section.assertionS cexAnswer) 2 5 :=
  ⟨by decide, by decide, by decide⟩

/-- C2 (counterexample): for the cache-missing query cexQuery without
TokenTracing and fresh outbound token 7, the pending-query entry recorded
by query stores the outbound token 7, not the client's original query
token 5 as the claim states. -/
theorem query_claim_false :
    (query 0 cexConfig 1 cexDelegation 7 cexQuery 2
        emptyState).pendingQueries.map (fun v => v.token) = [7] ∧
    cexQuery.token = 5 ∧
    (7 : Token) ≠ 5 :=
  ⟨by decide, by decide, by decide⟩

/-- C2 (amended): for a query that misses both caches, does not carry
CachedAnswersOnly, and whose delegate differs from this server's address:
the outbound token is the client's token exactly when TokenTracing is set
and the freshly minted token otherwise; a waiter
{sender, outbound token, validUntil} - storing the OUTBOUND token, not the
client's original one - is recorded with
validUntil = min(q.expires, now + AssertionQueryValidity); and a forwarded
query carrying the outbound token is emitted to the delegate. -/
theorem query_forwards_spec (now : Int) (cfg : Config)
    (serverConnInfo : ConnInfo)
    (getDelegationAddress : GoStr → GoStr → ConnInfo) (freshToken : Token)
    (q : QuerySection) (sender : ConnInfo) (st : EngineState)
    (zone name : GoStr)
    (hsplit : getZoneAndName q.name = [⟨zone, name⟩])
    (hmiss1 : assertionsCacheGet now st q.context zone name q.qtype
      (q.ContainsOption QOExpiredAssertionsOk) = [])
    (hmiss2 : negAssertionCacheGet st q.context zone name = none)
    (hopt : q.ContainsOption QOCachedAnswersOnly = false)
    (hdeleg : ¬ getDelegationAddress q.context zone = serverConnInfo)
    (hfresh : freshToken ≠ q.token) :
    query now cfg serverConnInfo getDelegationAddress freshToken q sender st =
      {st with
        pendingQueries := st.pendingQueries ++
          [⟨q.context, zone, name, q.qtype, sender,
            outboundToken freshToken q, queryValidUntil now cfg q⟩],
        out := st.out ++
          [OutMsg.forwardedQuery q.context zone (queryValidUntil now cfg q)
            q.qtype (outboundToken freshToken q)
            (getDelegationAddress q.context zone)]} ∧
    (outboundToken freshToken q = q.token ↔
      q.ContainsOption QOTokenTracing = true) ∧
    queryValidUntil now cfg q =
      min q.expires (now + cfg.AssertionQueryValidity) := by
  refine ⟨?_, ?_, ?_⟩
  · unfold query
    rw [hsplit]
    have hbeq : (getDelegationAddress q.context zone == serverConnInfo) =
        false := by simp [hdeleg]
    simp only [assertionLookupLoop, hmiss1, negLookupLoop, hmiss2, hopt,
      forwardLoop, hbeq, Bool.false_eq_true, if_false, sendQuery]
  · unfold outboundToken
    by_cases h : q.ContainsOption QOTokenTracing = true
    · simp [h]
    · simp [h, hfresh]
  · unfold queryValidUntil
    rw [min_def]
    split_ifs <;> omega

/-- C5: for a query carrying CachedAnswersOnly that misses both caches,
the sender receives a NoAssertionAvail notification and nothing else
happens: no forwarded query is emitted and no pending-query entry is
created. -/
theorem query_cachedAnswersOnly_spec (now : Int) (cfg : Config)
    (serverConnInfo : ConnInfo)
    (getDelegationAddress : GoStr → GoStr → ConnInfo) (freshToken : Token)
    (q : QuerySection) (sender : ConnInfo) (st : EngineState)
    (zone name : GoStr)
    (hsplit : getZoneAndName q.name = [⟨zone, name⟩])
    (hmiss1 : assertionsCacheGet now st q.context zone name q.qtype
      (q.ContainsOption QOExpiredAssertionsOk) = [])
    (hmiss2 : negAssertionCacheGet st q.context zone name = none)
    (hopt : q.ContainsOption QOCachedAnswersOnly = true) :
    query now cfg serverConnInfo getDelegationAddress freshToken q sender st =
      {st with out := st.out ++
        [OutMsg.notificationMsg q.token sender NoAssertionAvail]} := by
  unfold query
  rw [hsplit]
  simp only [assertionLookupLoop, hmiss1, negLookupLoop, hmiss2, hopt,
    if_true, sendNotificationMsg]

/-- C4: an assertion whose validFrom exceeds
now + MaxCacheAssertionValidity is rejected by assertAssertion: nothing is
inserted into the assertion cache, every pending-query entry stored under
the message's token is removed, and false is returned, so no pending query
is answered by this section.  (The hypothesis 0 < now reflects the code:
rejection returns validFrom = 0 from the getter, and the purge runs under
the comparison 0 < time.Now().Unix(), which always holds for a real
wall clock.) -/
theorem assertAssertion_rejects_future (now : Int) (cfg : Config)
    (a : AssertionSection) (isAuthoritative : Bool) (token : Token)
    (st : EngineState) (hnow : 0 < now)
    (hfut : now + cfg.MaxCacheAssertionValidity < a.validFrom) :
    assertAssertion now cfg a isAuthoritative token st =
      some ((pendingQueriesGetAllAndDelete token st).2, false) ∧
    (pendingQueriesGetAllAndDelete token st).2.assertionsCache =
      st.assertionsCache ∧
    (pendingQueriesGetAllAndDelete token
      ((pendingQueriesGetAllAndDelete token st).2)).1 = [] := by
  refine ⟨?_, rfl, ?_⟩
  · unfold assertAssertion
    simp only [getAssertionValidity, if_pos hfut]
    simp [hnow]
  · exact filter_token_of_filter_not_token token st.pendingQueries

/-- The C4 rejection at a concrete input: an assertion whose window starts
at 201 with now = 10 and cap 100 is dropped, the waiter stored under its
token 9 is purged while a waiter under token 8 survives, and false is
returned. -/
theorem assertAssertion_rejects_future_witness :
    assertAssertion 10 cexConfig ⟨goStr ".", goStr "ch", goStr "ethz",
        [⟨OTIP4Addr, ObjValue.strV (goStr "127.0.0.1")⟩], 201, 300⟩ true 9
      ⟨[], [], [⟨goStr ".", goStr "ch", goStr "ethz", 3, 2, 9, 50⟩,
        ⟨goStr ".", goStr "ch", goStr "www", 3, 2, 8, 50⟩], [], [], []⟩ =
      some ((pendingQueriesGetAllAndDelete 9
        ⟨[], [], [⟨goStr ".", goStr "ch", goStr "ethz", 3, 2, 9, 50⟩,
          ⟨goStr ".", goStr "ch", goStr "www", 3, 2, 8, 50⟩], [], [],
          []⟩).2, false) ∧
    (pendingQueriesGetAllAndDelete 9
      ⟨[], [], [⟨goStr ".", goStr "ch", goStr "ethz", 3, 2, 9, 50⟩,
        ⟨goStr ".", goStr "ch", goStr "www", 3, 2, 8, 50⟩], [], [],
        []⟩).2.assertionsCache = [] ∧
    (pendingQueriesGetAllAndDelete 9 ((pendingQueriesGetAllAndDelete 9
      ⟨[], [], [⟨goStr ".", goStr "ch", goStr "ethz", 3, 2, 9, 50⟩,
        ⟨goStr ".", goStr "ch", goStr "www", 3, 2, 8, 50⟩], [], [],
        []⟩).2)).1 = [] :=
  assertAssertion_rejects_future 10 cexConfig _ true 9 _ (by decide)
    (by decide)

/-- An assertion with no content objects, otherwise valid. -/
def zeroObjAssertion : AssertionSection :=
  ⟨goStr ".", goStr "ch", goStr "ethz", [], 0, 10⟩

/-- C8: a zero-object assertion is NOT rejected cleanly: with an
acceptable validity window, assertAssertion evaluates a.Content[0] on the
empty slice and panics (none), and handleAssertion panics the same way -
the engine crashes instead of rejecting the section. -/
theorem assertAssertion_zero_object_panics :
    assertAssertion 5 cexConfig zeroObjAssertion true 1 emptyState = none ∧
    handleAssertion 5 zeroObjAssertion 1 emptyState = none :=
  ⟨by decide, by decide⟩

/-- C9: only the first content object steers processing: every assertion
cache entry added by assertAssertion is keyed under Content[0].Type, and
handleAssertion wakes the delegation-pending sections exactly when
Content[0] has the delegation type, then triggers the pending queries -
the objects after the first influence neither the cache key nor the
wake-up. -/
theorem assert_first_object_only (now : Int) (cfg : Config)
    (a : AssertionSection) (o : Object) (rest : List Object)
    (isAuthoritative : Bool) (token : Token) (st : EngineState)
    (hc : a.content = o :: rest) :
    (∀ st1 b, assertAssertion now cfg a isAuthoritative token st =
        some (st1, b) →
      ∀ e ∈ st1.assertionsCache,
        e ∈ st.assertionsCache ∨ e.objType = o.typ) ∧
    handleAssertion now a token st =
      some (handlePendingQueries now (Section.assertionS a) token
        (if o.typ = OTDelegation then
          drainPendingSignatures a.context a.subjectZone st
        else st)) := by
  constructor
  · intro st1 b h e he
    unfold assertAssertion at h
    by_cases hfut : now + cfg.MaxCacheAssertionValidity < a.validFrom
    · simp only [getAssertionValidity, if_pos hfut] at h
      by_cases hn : (0 : Int) < now
      · simp [hn] at h
        rw [← h.1] at he
        exact Or.inl he
      · simp [hn] at h
        rw [← h.1] at he
        exact Or.inl he
    · simp only [getAssertionValidity, if_neg hfut, shouldAssertionBeCached,
        hc, List.head?, if_true] at h
      simp only [Option.some.injEq, Prod.mk.injEq] at h
      rw [← h.1] at he
      simp only [assertionsCacheAdd, List.mem_append,
        List.mem_singleton] at he
      rcases he with he | he
      · exact Or.inl he
      · subst he
        exact Or.inr rfl
  · unfold handleAssertion
    rw [hc]
    rfl

/-- The C9 characterization at a concrete input: a delegation assertion
with a second, non-delegation object is cached under the delegation type
and wakes the pending-signature entry for (., ch). -/
theorem assert_first_object_only_witness :
    (∀ st1 b, assertAssertion 0 cexConfig ⟨goStr ".", goStr "ch",
          goStr "ethz", [⟨OTDelegation, ObjValue.pkeyV
            ⟨1, 0, KeyData.ed25519 [1], 0, 90⟩⟩,
          ⟨OTIP4Addr, ObjValue.strV (goStr "127.0.0.1")⟩], 0, 90⟩ true 4
          emptyState = some (st1, b) →
      ∀ e ∈ st1.assertionsCache, e ∈ emptyState.assertionsCache ∨
        e.objType = OTDelegation) ∧
    handleAssertion 0 ⟨goStr ".", goStr "ch", goStr "ethz",
        [⟨OTDelegation, ObjValue.pkeyV ⟨1, 0, KeyData.ed25519 [1], 0, 90⟩⟩,
         ⟨OTIP4Addr, ObjValue.strV (goStr "127.0.0.1")⟩], 0, 90⟩ 4
        emptyState =
      some (handlePendingQueries 0 (Section.assertionS ⟨goStr ".",
        goStr "ch", goStr "ethz", [⟨OTDelegation, ObjValue.pkeyV
          ⟨1, 0, KeyData.ed25519 [1], 0, 90⟩⟩,
        ⟨OTIP4Addr, ObjValue.strV (goStr "127.0.0.1")⟩], 0, 90⟩) 4
        (if OTDelegation = OTDelegation then
          drainPendingSignatures (goStr ".") (goStr "ch") emptyState
        else emptyState)) := by
  have h := assert_first_object_only 0 cexConfig ⟨goStr ".", goStr "ch",
    goStr "ethz", [⟨OTDelegation, ObjValue.pkeyV
      ⟨1, 0, KeyData.ed25519 [1], 0, 90⟩⟩,
    ⟨OTIP4Addr, ObjValue.strV (goStr "127.0.0.1")⟩], 0, 90⟩
    ⟨OTDelegation, ObjValue.pkeyV ⟨1, 0, KeyData.ed25519 [1], 0, 90⟩⟩
    [⟨OTIP4Addr, ObjValue.strV (goStr "127.0.0.1")⟩] true 4 emptyState rfl
  exact h

/-! ### C6: clamping of stored validUntil values -/

/-- The per-kind validity cap that applies to a negative-cache entry. -/
def negKindCap (cfg : Config) (e : NegAssertionCacheEntry) : Int :=
  match e.sec with
  | .assertionS _ => 0
  | .shardS _ => cfg.MaxCacheShardValidity
  | .zoneS _ => cfg.MaxCacheZoneValidity

/-- Every cache entry of stNew is an entry st already had, or carries a
stored validUntil of at most now plus the cap for its kind
(MaxCacheAssertionValidity for assertion entries, MaxCacheShardValidity /
MaxCacheZoneValidity for shard / zone entries). -/
def CacheBnd (now : Int) (cfg : Config) (st stNew : EngineState) : Prop :=
  (∀ e ∈ stNew.assertionsCache,
    e ∈ st.assertionsCache ∨
      e.validUntil ≤ now + cfg.MaxCacheAssertionValidity) ∧
  (∀ e ∈ stNew.negAssertionCache,
    e ∈ st.negAssertionCache ∨ e.validUntil ≤ now + negKindCap cfg e)

theorem cacheBnd_refl (now : Int) (cfg : Config) (st : EngineState) :
    CacheBnd now cfg st st :=
  ⟨fun _ he => Or.inl he, fun _ he => Or.inl he⟩

theorem cacheBnd_trans {now : Int} {cfg : Config} {s1 s2 s3 : EngineState}
    (h12 : CacheBnd now cfg s1 s2) (h23 : CacheBnd now cfg s2 s3) :
    CacheBnd now cfg s1 s3 := by
  refine ⟨fun e he => ?_, fun e he => ?_⟩
  · rcases h23.1 e he with h | h
    · exact h12.1 e h
    · exact Or.inr h
  · rcases h23.2 e he with h | h
    · exact h12.2 e h
    · exact Or.inr h

theorem assertAssertion_bnd {now : Int} {cfg : Config}
    {a : AssertionSection} {isAuthoritative : Bool} {token : Token}
    {st st1 : EngineState} {b : Bool}
    (h : assertAssertion now cfg a isAuthoritative token st =
      some (st1, b)) : CacheBnd now cfg st st1 := by
  unfold assertAssertion at h
  by_cases hfut : now + cfg.MaxCacheAssertionValidity < a.validFrom
  · simp only [getAssertionValidity, if_pos hfut] at h
    by_cases hn : (0 : Int) < now <;> simp [hn] at h <;> rw [← h.1] <;>
      exact ⟨fun _ he => Or.inl he, fun _ he => Or.inl he⟩
  · simp only [getAssertionValidity, if_neg hfut, shouldAssertionBeCached,
      if_true] at h
    cases hh : a.content.head? with
    | none => rw [hh] at h; simp at h
    | some o =>
      rw [hh] at h
      simp only [Option.some.injEq, Prod.mk.injEq] at h
      rw [← h.1]
      refine ⟨fun e he => ?_, fun e he => Or.inl he⟩
      simp only [assertionsCacheAdd, List.mem_append,
        List.mem_singleton] at he
      rcases he with he | he
      · exact Or.inl he
      · subst he
        refine Or.inr ?_
        simp only
        split_ifs <;> omega

theorem assertAssertionList_bnd {now : Int} {cfg : Config}
    {isAuthoritative : Bool} :
    ∀ (asserts : List AssertionSection) (st st1 : EngineState),
      assertAssertionList now cfg asserts isAuthoritative st = some st1 →
      CacheBnd now cfg st st1 := by
  intro asserts
  induction asserts with
  | nil =>
    intro st st1 h
    simp only [assertAssertionList, Option.some.injEq] at h
    rw [← h]
    exact cacheBnd_refl now cfg st
  | cons a rest ih =>
    intro st st1 h
    simp only [assertAssertionList] at h
    cases ha : assertAssertion now cfg a isAuthoritative emptyToken st with
    | none => rw [ha] at h; simp at h
    | some p =>
      obtain ⟨st2, b2⟩ := p
      rw [ha] at h
      exact cacheBnd_trans (assertAssertion_bnd ha) (ih st2 st1 h)

theorem assertShard_bnd {now : Int} {cfg : Config} {s : ShardSection}
    {isAuthoritative : Bool} {token : Token} {st st1 : EngineState}
    {b : Bool}
    (h : assertShard now cfg s isAuthoritative token st = some (st1, b)) :
    CacheBnd now cfg st st1 := by
  unfold assertShard at h
  by_cases hfut : now + cfg.MaxCacheShardValidity < s.validFrom
  · simp only [getShardValidity, if_pos hfut] at h
    by_cases hn : (0 : Int) < now <;> simp [hn] at h <;> rw [← h.1] <;>
      exact ⟨fun _ he => Or.inl he, fun _ he => Or.inl he⟩
  · simp only [getShardValidity, if_neg hfut, shouldShardBeCached,
      if_true] at h
    cases hl : assertAssertionList now cfg s.content isAuthoritative
        (negAssertionCacheAdd st ⟨s.context, s.subjectZone, isAuthoritative,
          Section.shardS s, s.validFrom,
          if now + cfg.MaxCacheShardValidity < s.validUntil then
            now + cfg.MaxCacheShardValidity
          else s.validUntil⟩) with
    | none => rw [hl] at h; simp at h
    | some st2 =>
      rw [hl] at h
      simp only [Option.some.injEq, Prod.mk.injEq] at h
      rw [← h.1]
      refine cacheBnd_trans ?_ (assertAssertionList_bnd _ _ _ hl)
      refine ⟨fun e he => Or.inl he, fun e he => ?_⟩
      simp only [negAssertionCacheAdd, List.mem_append,
        List.mem_singleton] at he
      rcases he with he | he
      · exact Or.inl he
      · subst he
        refine Or.inr ?_
        simp only [negKindCap]
        split_ifs <;> omega

theorem assertZoneContentList_bnd {now : Int} {cfg : Config}
    {isAuthoritative : Bool} :
    ∀ (content : List ZoneContent) (st st1 : EngineState),
      assertZoneContentList now cfg content isAuthoritative st = some st1 →
      CacheBnd now cfg st st1 := by
  intro content
  induction content with
  | nil =>
    intro st st1 h
    simp only [assertZoneContentList, Option.some.injEq] at h
    rw [← h]
    exact cacheBnd_refl now cfg st
  | cons c rest ih =>
    intro st st1 h
    cases c with
    | assertionC a =>
      simp only [assertZoneContentList] at h
      cases ha : assertAssertion now cfg a isAuthoritative emptyToken st with
      | none => rw [ha] at h; simp at h
      | some p =>
        obtain ⟨st2, b2⟩ := p
        rw [ha] at h
        exact cacheBnd_trans (assertAssertion_bnd ha) (ih st2 st1 h)
    | shardC s =>
      simp only [assertZoneContentList] at h
      cases hs : assertShard now cfg s isAuthoritative emptyToken st with
      | none => rw [hs] at h; simp at h
      | some p =>
        obtain ⟨st2, b2⟩ := p
        rw [hs] at h
        exact cacheBnd_trans (assertShard_bnd hs) (ih st2 st1 h)
    | otherC =>
      simp only [assertZoneContentList] at h
      exact ih st st1 h

theorem assertZone_bnd {now : Int} {cfg : Config} {z : ZoneSection}
    {isAuthoritative : Bool} {token : Token} {st st1 : EngineState}
    {b : Bool}
    (h : assertZone now cfg z isAuthoritative token st = some (st1, b)) :
    CacheBnd now cfg st st1 := by
  unfold assertZone at h
  by_cases hfut : now + cfg.MaxCacheZoneValidity < z.validFrom
  · simp only [getZoneValidity, if_pos hfut] at h
    by_cases hn : (0 : Int) < now <;> simp [hn] at h <;> rw [← h.1] <;>
      exact ⟨fun _ he => Or.inl he, fun _ he => Or.inl he⟩
  · simp only [getZoneValidity, if_neg hfut, shouldZoneBeCached,
      if_true] at h
    cases hl : assertZoneContentList now cfg z.content isAuthoritative
        (negAssertionCacheAdd st ⟨z.context, z.subjectZone, isAuthoritative,
          Section.zoneS z, z.validFrom,
          if now + cfg.MaxCacheZoneValidity < z.validUntil then
            now + cfg.MaxCacheZoneValidity
          else z.validUntil⟩) with
    | none => rw [hl] at h; simp at h
    | some st2 =>
      rw [hl] at h
      simp only [Option.some.injEq, Prod.mk.injEq] at h
      rw [← h.1]
      refine cacheBnd_trans ?_ (assertZoneContentList_bnd _ _ _ hl)
      refine ⟨fun e he => Or.inl he, fun e he => ?_⟩
      simp only [negAssertionCacheAdd, List.mem_append,
        List.mem_singleton] at he
      rcases he with he | he
      · exact Or.inl he
      · subst he
        refine Or.inr ?_
        simp only [negKindCap]
        split_ifs <;> omega

/-- C6: whatever state an assert step completes in, every newly inserted
cache entry stores an effective validUntil of at most now plus the
per-kind maximum cache validity - MaxCacheAssertionValidity for assertion
entries, MaxCacheShardValidity for shard entries, MaxCacheZoneValidity for
zone entries - the getters having clamped any larger validUntil on
insertion. -/
theorem cache_insert_validUntil_bounded (now : Int) (cfg : Config)
    (a : AssertionSection) (s : ShardSection) (z : ZoneSection)
    (isAuthoritative : Bool) (token : Token) (st : EngineState) :
    (∀ st1 b, assertAssertion now cfg a isAuthoritative token st =
      some (st1, b) → CacheBnd now cfg st st1) ∧
    (∀ st1 b, assertShard now cfg s isAuthoritative token st =
      some (st1, b) → CacheBnd now cfg st st1) ∧
    (∀ st1 b, assertZone now cfg z isAuthoritative token st =
      some (st1, b) → CacheBnd now cfg st st1) :=
  ⟨fun _ _ h => assertAssertion_bnd h,
   fun _ _ h => assertShard_bnd h,
   fun _ _ h => assertZone_bnd h⟩

/-- An assertion whose own validUntil 500 exceeds the cap 100 of
cexConfig. -/
def cexLongAssertion : AssertionSection :=
  ⟨goStr ".", goStr "ch", goStr "ethz",
   [⟨OTIP4Addr, .strV (goStr "127.0.0.1")⟩], 0, 500⟩

/-- A shard containing cexLongAssertion, its own validUntil also 500. -/
def cexShard : ShardSection :=
  ⟨goStr ".", goStr "ch", goStr "a", goStr "z", [cexLongAssertion], 0, 500⟩

/-- A zone containing cexLongAssertion and cexShard. -/
def cexZone : ZoneSection :=
  ⟨goStr ".", goStr "ch",
   [.assertionC cexLongAssertion, .shardC cexShard], 0, 500⟩

/-- The C6 bound at concrete inputs: asserting cexLongAssertion, cexShard
and cexZone (each with raw validUntil 500, caps 100) completes, and every
entry of the resulting caches is clamped to now + cap. -/
theorem cache_insert_validUntil_bounded_witness :
    CacheBnd 0 cexConfig emptyState
      ⟨[⟨goStr ".", goStr "ch", goStr "ethz", 3, true, cexLongAssertion,
        0, 100⟩], [], [], [], [], []⟩ ∧
    CacheBnd 0 cexConfig emptyState
      ⟨[⟨goStr ".", goStr "ch", goStr "ethz", 3, true, cexLongAssertion,
        0, 100⟩],
       [⟨goStr ".", goStr "ch", true, Section.shardS cexShard, 0, 100⟩],
       [], [], [], []⟩ ∧
    CacheBnd 0 cexConfig emptyState
      ⟨[⟨goStr ".", goStr "ch", goStr "ethz", 3, true, cexLongAssertion,
        0, 100⟩,
        ⟨goStr ".", goStr "ch", goStr "ethz", 3, true, cexLongAssertion,
        0, 100⟩],
       [⟨goStr ".", goStr "ch", true, Section.zoneS cexZone, 0, 100⟩,
        ⟨goStr ".", goStr "ch", true, Section.shardS cexShard, 0, 100⟩],
       [], [], [], []⟩ := by
  have h := cache_insert_validUntil_bounded 0 cexConfig cexLongAssertion
    cexShard cexZone true 1 emptyState
  exact ⟨h.1 _ true (by decide), h.2.1 _ true (by decide),
    h.2.2 _ true (by decide)⟩

/-- The amended C2 at a concrete input: the cache-missing client query
cexQuery (token 5, no TokenTracing) forwarded with fresh token 7 records
the waiter under token 7 with lifetime min(100, 0 + 50) = 50 and emits the
forwarded query to delegate 3. -/
theorem query_forwards_spec_witness :
    (query 0 cexConfig 1 cexDelegation 7 cexQuery 2 emptyState =
      {emptyState with
        pendingQueries := emptyState.pendingQueries ++
          [⟨cexQuery.context, goStr "ch", goStr "ethz", cexQuery.qtype, 2,
            outboundToken 7 cexQuery, queryValidUntil 0 cexConfig cexQuery⟩],
        out := emptyState.out ++
          [OutMsg.forwardedQuery cexQuery.context (goStr "ch")
            (queryValidUntil 0 cexConfig cexQuery) cexQuery.qtype
            (outboundToken 7 cexQuery)
            (cexDelegation cexQuery.context (goStr "ch"))]}) ∧
    (outboundToken 7 cexQuery = cexQuery.token ↔
      cexQuery.ContainsOption QOTokenTracing = true) ∧
    queryValidUntil 0 cexConfig cexQuery =
      min cexQuery.expires (0 + cexConfig.AssertionQueryValidity) :=
  query_forwards_spec 0 cexConfig 1 cexDelegation 7 cexQuery 2 emptyState
    (goStr "ch") (goStr "ethz") (by decide) (by decide) (by decide)
    (by decide) (by decide) (by decide)

/-- A client query identical to cexQuery but carrying CachedAnswersOnly. -/
def cexQueryCached : QuerySection :=
  ⟨goStr ".", goStr "ethz.ch", 100, 5, 3, [QOCachedAnswersOnly]⟩

/-- The C5 behaviour at a concrete input: the CachedAnswersOnly query on
empty caches yields exactly one NoAssertionAvail notification to the
sender. -/
theorem query_cachedAnswersOnly_spec_witness :
    query 0 cexConfig 1 cexDelegation 7 cexQueryCached 2 emptyState =
      {emptyState with out := emptyState.out ++
        [OutMsg.notificationMsg cexQueryCached.token 2 NoAssertionAvail]} :=
  query_cachedAnswersOnly_spec 0 cexConfig 1 cexDelegation 7 cexQueryCached
    2 emptyState (goStr "ch") (goStr "ethz") (by decide) (by decide)
    (by decide) (by decide)

end Rains
